import Mathlib

/-!
# gofika/bip32 : key derivation engine

A shallow embedding of `extended_key.go`, `derive.go` and `ecdsa.go`.

* Go byte slices and strings are lists of byte values (`Bytes`); a `uint32`
  is a natural number reduced modulo `2^32` wherever Go arithmetic wraps.
* A Go call returning `(value, error)` becomes an `Outcome`: a value, one of
  the package's sentinel errors, or a run-time panic of the Go runtime.
* The primitives imported from other packages (HMAC-SHA512, secp256k1 base
  point multiplication, key objects of btcec and ed25519) are the fields of
  `Crypto`; every definition that calls one takes a `Crypto` as argument.
* `realCrypto` instantiates these fields with executable definitions of
  SHA-512, HMAC, secp256k1 and ed25519 written from their standards; it is
  used for the known test vector only.
* The field prime of secp256k1 is proved prime by a tree of Lucas tests.
-/

namespace Bip32

/-! ## Data model -/

/-- Go `[]byte` / `string`: a sequence of byte values. -/
abbrev Bytes := List Nat

/-- The bytes of an ASCII string literal of the source. -/
def ascii (s : String) : Bytes := s.data.map Char.toNat

/-- The sentinel errors declared in `extended_key.go`. -/
inductive GoError where
  | ErrInvalidPath
  | ErrInvalidChild
  | ErrInvalidSeedLength
  deriving DecidableEq, Repr

/-- Result of a Go call `(v, err)`: a value with `err == nil`, a non-nil
sentinel error with no value, or a run-time panic (index out of range). -/
inductive Outcome (α : Type) where
  | ok (v : α)
  | err (e : GoError)
  | panicked
  deriving DecidableEq, Repr

/-- Constant `HardenedKeyStart = 0x80000000` of `extended_key.go`. -/
def HardenedKeyStart : Nat := 0x80000000

/-- Constant `MinSeedBytes` of `extended_key.go`. -/
def MinSeedBytes : Nat := 16

/-- Constant `MaxSeedBytes` of `extended_key.go`. -/
def MaxSeedBytes : Nat := 64

/-- Constant `PrivateKeySize` of `extended_key.go`. -/
def PrivateKeySize : Nat := 32

/-- Constant `PublicKeyCompressedLength` of `extended_key.go`. -/
def PublicKeyCompressedLength : Nat := 33

/-- The struct `ExtendedKey`. The four key objects built by btcec and
ed25519 are kept as the byte strings those libraries hand back. -/
structure ExtendedKey where
  ecKey : Bytes
  ecChainCode : Bytes
  ecPrivateKey : Bytes
  ecPublicKey : Bytes
  edKey : Bytes
  edChainCode : Bytes
  edPrivateKey : Bytes
  edPublicKey : Bytes
  deriving DecidableEq, Repr

/-- Accessor `ECPrivateKeyBytes`. -/
def ExtendedKey.ECPrivateKeyBytes (ek : ExtendedKey) : Bytes := ek.ecKey

/-- Accessor `EDPrivateKeyBytes`. -/
def ExtendedKey.EDPrivateKeyBytes (ek : ExtendedKey) : Bytes := ek.edKey

/-- Primitives of other packages, taken as arbitrary functions:
`hmacSHA512 key data` (hash.go, over crypto/hmac and crypto/sha512),
`curve.ScalarBaseMult`, `btcec.PrivKeyFromBytes` (private and public key
object), `ed25519.NewKeyFromSeed` and `ed25519.PrivateKey.Public`.
An HMAC-SHA512 output has 64 bytes, so the slices `I[:32]` and `I[32:]` of
the source are `I.take 32` and `I.drop 32`. -/
structure Crypto where
  hmacSHA512 : Bytes → Bytes → Bytes
  ScalarBaseMult : Bytes → Int × Int
  PrivKeyFromBytes : Bytes → Bytes × Bytes
  NewKeyFromSeed : Bytes → Bytes
  Public : Bytes → Bytes

/-! ## Library functions used by the source -/

/-- Go `big.Int.SetBytes`: the big-endian unsigned integer of a byte slice. -/
def SetBytes (b : Bytes) : Nat := b.foldl (fun acc x => acc * 256 + x) 0

/-- Loop of `big.Int.Bytes`: peel base-256 digits, least significant first,
pushing each in front of the accumulator. -/
def bytesLoop : Nat → Nat → Bytes → Bytes
  | 0, _, acc => acc
  | fuel + 1, n, acc =>
    if n = 0 then acc else bytesLoop fuel (n / 256) (n % 256 :: acc)

/-- Go `big.Int.Bytes` on a non-negative integer: the big-endian bytes
without leading zero bytes (the empty slice for zero). -/
def natBytes (n : Nat) : Bytes := bytesLoop n n []

/-- Go `binary.BigEndian.PutUint32`: the four bytes written for a `uint32`. -/
def ser32 (v : Nat) : Bytes :=
  [v / 2 ^ 24 % 256, v / 2 ^ 16 % 256, v / 2 ^ 8 % 256, v % 256]

/-- Go builtin `copy(dst, src)`: the contents of `dst` afterwards. The first
`min (len dst) (len src)` bytes come from `src`, the rest is untouched. -/
def copy (dst src : Bytes) : Bytes := src.take dst.length ++ dst.drop src.length

/-- Contents of `data` after `copy(data[off:], src)`. -/
def copyAt (data : Bytes) (off : Nat) (src : Bytes) : Bytes :=
  data.take off ++ copy (data.drop off) src

/-- Contents of `data` after `binary.BigEndian.PutUint32(data[off:], v)`
(the source always leaves at least four bytes from `off`). -/
def PutUint32At (data : Bytes) (off : Nat) (v : Nat) : Bytes :=
  copyAt data off (ser32 v)

/-- Go `strings.Split(s, sep)` for a one-byte separator: the substrings
between the separators; a string without separator gives the one-element
slice holding it, the empty string included. -/
def Split (sep : Nat) : Bytes → List Bytes
  | [] => [[]]
  | c :: cs =>
    if c = sep then [] :: Split sep cs
    else
      match Split sep cs with
      | [] => [[c]]
      | p :: ps => (c :: p) :: ps

/-- Digit loop of Go `strconv.ParseUint` for base 10: `none` is a non-nil
error (a byte that is no decimal digit: syntax; overflow of `uint64` or a
value above `maxVal`: range). -/
def parseUintLoop (maxVal : Nat) : Bytes → Nat → Option Nat
  | [], n => some n
  | c :: cs, n =>
    if 48 ≤ c ∧ c ≤ 57 then
      if n ≥ (2 ^ 64 - 1) / 10 + 1 then none
      else
        let n1 := (n * 10 + (c - 48)) % 2 ^ 64
        if n1 < n * 10 ∨ n1 > maxVal then none else parseUintLoop maxVal cs n1
    else none

/-- Go `strconv.ParseUint(s, 10, bitSize)`: `none` when it returns an error
(the empty string is a syntax error). -/
def ParseUint (s : Bytes) (bitSize : Nat) : Option Nat :=
  if s = [] then none else parseUintLoop (2 ^ bitSize - 1) s 0

/-! ## ecdsa.go -/

/-- Function `curveOrder`: the order of secp256k1. -/
def curveOrder : Nat :=
  0xFFFFFFFFFFFFFFFFFFFFFFFFFFFFFFFEBAAEDCE6AF48A03BBFD25E8CD0364141

/-- Function `compressPublicKey`: header byte `0x2 + y.Bit(0)`, then zero
bytes while `i < PublicKeyCompressedLength - 1 - len(xBytes)`, then
`xBytes = x.Bytes()` (the bytes of the absolute value). -/
def compressPublicKey (x y : Int) : Bytes :=
  let xBytes := natBytes x.natAbs
  ((2 + y.natAbs % 2) % 256) ::
    (List.replicate (PublicKeyCompressedLength - 1 - xBytes.length) 0 ++ xBytes)

/-- Function `generatePublicKey`. -/
def generatePublicKey (c : Crypto) (key : Bytes) : Bytes :=
  let p := c.ScalarBaseMult key
  compressPublicKey p.1 p.2

/-! ## extended_key.go -/

/-- Function `NewExtendedKey`. -/
def NewExtendedKey (c : Crypto) (seed : Bytes) : Outcome ExtendedKey :=
  let seedLength := seed.length
  if seedLength < MinSeedBytes ∨ seedLength > MaxSeedBytes then
    .err .ErrInvalidSeedLength
  else
    let I := c.hmacSHA512 (ascii "Bitcoin seed") seed
    let il := I.take 32
    let ir := I.drop 32
    let ec := c.PrivKeyFromBytes il
    let J := c.hmacSHA512 (ascii "ed25519 seed") seed
    let jl := J.take 32
    let jr := J.drop 32
    let edPrivateKey := c.NewKeyFromSeed jl
    let edPublicKey := c.Public edPrivateKey
    .ok { ecKey := il, ecChainCode := ir, ecPrivateKey := ec.1, ecPublicKey := ec.2,
          edKey := jl, edChainCode := jr, edPrivateKey := edPrivateKey,
          edPublicKey := edPublicKey }

/-! ## derive.go -/

/-- The HMAC input `data` built by the ECDSA block of `Derive`. -/
def ecData (c : Crypto) (key : ExtendedKey) (childIndex : Nat) : Bytes :=
  if childIndex ≥ 2 ^ 31 then
    let data := List.replicate (1 + PrivateKeySize + 4) 0
    let data := copyAt data 1 key.ecKey
    PutUint32At data (1 + PrivateKeySize) childIndex
  else
    let publicKey := generatePublicKey c key.ecKey
    let data := List.replicate (33 + 4) 0
    let data := copy data publicKey
    PutUint32At data 33 childIndex

/-- The HMAC input `data` built by the EdDSA block of `Derive`. -/
def edData (key : ExtendedKey) (childIndex : Nat) : Bytes :=
  let data := List.replicate (1 + PrivateKeySize + 4) 0
  let data := copyAt data 1 key.edKey
  PutUint32At data (1 + PrivateKeySize) childIndex

/-- Function `Derive`. -/
def Derive (c : Crypto) (key : ExtendedKey) (childIndex : Nat) : Outcome ExtendedKey :=
  let I := c.hmacSHA512 key.ecChainCode (ecData c key childIndex)
  let il := I.take 32
  let ir := I.drop 32
  let ilInt := SetBytes il
  if ilInt ≥ curveOrder ∨ ilInt = 0 then
    .err .ErrInvalidChild
  else
    let parentKeyInt := SetBytes key.ecKey
    let ki := (ilInt + parentKeyInt) % curveOrder
    let ecKey := natBytes ki
    let ec := c.PrivKeyFromBytes ecKey
    let J := c.hmacSHA512 key.edChainCode (edData key childIndex)
    let jl := J.take 32
    let jr := J.drop 32
    let edPrivateKey := c.NewKeyFromSeed jl
    .ok { ecKey := ecKey, ecChainCode := ir, ecPrivateKey := ec.1, ecPublicKey := ec.2,
          edKey := jl, edChainCode := jr, edPrivateKey := edPrivateKey,
          edPublicKey := c.Public edPrivateKey }

/-- Function `DerivePaths`: the loop over `paths`. -/
def DerivePaths (c : Crypto) (key : ExtendedKey) : List Nat → Outcome ExtendedKey
  | [] => .ok key
  | childIdx :: rest =>
    match Derive c key childIdx with
    | .ok k => DerivePaths c k rest
    | .err e => .err e
    | .panicked => .panicked

/-- Loop body of `ParsePath` over `parts[1:]`, `paths` being the slice built
so far. Indexing `part[len(part)-1]` panics on an empty `part`. -/
def parseSegments : List Bytes → List Nat → Outcome (List Nat)
  | [], paths => .ok paths
  | part :: rest, paths =>
    match part.getLast? with
    | none => .panicked
    | some last =>
      let childIdx := if last = 39 then HardenedKeyStart else 0
      let part := if last = 39 then part.dropLast else part
      match ParseUint part 32 with
      | none => .err .ErrInvalidPath
      | some idx => parseSegments rest (paths ++ [(childIdx + idx % 2 ^ 32) % 2 ^ 32])

/-- Function `ParsePath`. -/
def ParsePath (path : Bytes) : Outcome (List Nat) :=
  match Split 47 path with
  | [] => .err .ErrInvalidPath
  | root :: rest =>
    if root ≠ ascii "m" then .err .ErrInvalidPath
    else parseSegments rest []

/-- Function `DerivePath`. -/
def DerivePath (c : Crypto) (key : ExtendedKey) (path : Bytes) : Outcome ExtendedKey :=
  match ParsePath path with
  | .ok paths => DerivePaths c key paths
  | .err e => .err e
  | .panicked => .panicked

/-! ## Reference notions used to state the properties -/

/-- Sequencing of outcomes: run `f` on a value, pass an error or a panic on. -/
def Outcome.andThen {α β : Type} (o : Outcome α) (f : α → Outcome β) : Outcome β :=
  match o with
  | .ok v => f v
  | .err e => .err e
  | .panicked => .panicked

/-- Specification of the path walk, in the words of the design: the
left-to-right fold of `Derive` over the indices, threading the key and
keeping the first failure. -/
def foldDerive (c : Crypto) (key : ExtendedKey) (paths : List Nat) : Outcome ExtendedKey :=
  paths.foldl (fun acc i => acc.andThen (fun k => Derive c k i)) (.ok key)

/-- Digit loop of the decimal rendering of a natural number. -/
def decimalLoop : Nat → Nat → Bytes → Bytes
  | 0, _, acc => acc
  | fuel + 1, n, acc =>
    if n < 10 then (48 + n) :: acc
    else decimalLoop fuel (n / 10) ((48 + n % 10) :: acc)

/-- The decimal rendering of a natural number, as ASCII bytes, most
significant digit first and without leading zeros. -/
def decimal (n : Nat) : Bytes := decimalLoop (n + 1) n []

/-- Text of one path segment: the decimal index, then an apostrophe when the
segment is hardened. -/
def segmentText (p : Nat × Bool) : Bytes :=
  decimal p.1 ++ (if p.2 then ascii "'" else [])

/-- Text after the root: every segment preceded by a slash. -/
def segmentsText : List (Nat × Bool) → Bytes
  | [] => []
  | p :: ps => 47 :: (segmentText p ++ segmentsText ps)

/-- Text of a whole path: the root `m` followed by the segments. -/
def pathText (l : List (Nat × Bool)) : Bytes := ascii "m" ++ segmentsText l

/-- The index a segment stands for: its number, plus `2^31` when hardened. -/
def segmentIndex (p : Nat × Bool) : Nat := p.1 + (if p.2 then 2 ^ 31 else 0)

/-- The value of a string of decimal digits read from the left,
starting from `acc`. -/
def decimalValue (s : Bytes) (acc : Nat) : Nat :=
  s.foldl (fun a c => a * 10 + (c - 48)) acc

/-- A stand-in for the external primitives with fixed outputs: the HMAC
keyed by "Bitcoin seed" gives `IL = n - 1` (`n` the curve order), every other
HMAC gives `IL = 1`; each output is 64 bytes long. -/
def stubCrypto : Crypto where
  hmacSHA512 key _ :=
    if key = ascii "Bitcoin seed" then natBytes (curveOrder - 1) ++ List.replicate 32 1
    else List.replicate 31 0 ++ [1] ++ List.replicate 32 2
  ScalarBaseMult _ := (0, 0)
  PrivKeyFromBytes b := (b, [])
  NewKeyFromSeed s := s
  Public s := s

/-- A sample key: the master key of the sixteen-byte zero seed
under `stubCrypto`. -/
def stubMaster : ExtendedKey :=
  { ecKey := natBytes (curveOrder - 1), ecChainCode := List.replicate 32 1,
    ecPrivateKey := natBytes (curveOrder - 1), ecPublicKey := [],
    edKey := List.replicate 31 0 ++ [1], edChainCode := List.replicate 32 2,
    edPrivateKey := List.replicate 31 0 ++ [1], edPublicKey := List.replicate 31 0 ++ [1] }

/-- The encoding `ser256` of the design: the 32-byte big-endian encoding of
an integer, padded with zero bytes on the left. -/
def ser256 (k : Nat) : Bytes :=
  List.replicate (32 - (natBytes k).length) 0 ++ natBytes k

/-- The EdDSA block of `Derive` on its own: the child seed and the child chain
code, the two halves of the HMAC of the EdDSA data under the parent's EdDSA
chain code. -/
def edBranch (c : Crypto) (key : ExtendedKey) (childIndex : Nat) : Bytes × Bytes :=
  let I := c.hmacSHA512 key.edChainCode (edData key childIndex)
  (I.take 32, I.drop 32)

/-- The EdDSA output of a derivation step, as a caller observes it: the child
seed and chain code of a returned key, nothing when the step returns no key. -/
def edOutput (o : Outcome ExtendedKey) : Option (Bytes × Bytes) :=
  match o with
  | .ok k => some (k.edKey, k.edChainCode)
  | _ => none

/-- A second stand-in for the external primitives: the HMAC keyed by 32
bytes of value 3 gives 64 zero bytes (`IL = 0`), every other HMAC gives
`IL = 1` and `IR` = 32 bytes of value 2. -/
def gateCrypto : Crypto where
  hmacSHA512 key _ :=
    if key = List.replicate 32 3 then List.replicate 64 0
    else List.replicate 31 0 ++ [1] ++ List.replicate 32 2
  ScalarBaseMult _ := (0, 0)
  PrivKeyFromBytes b := (b, [])
  NewKeyFromSeed s := s
  Public s := s

/-- The master key of the sixteen-byte zero seed under `gateCrypto`:
its scalar is 1. -/
def gateMaster : ExtendedKey :=
  { ecKey := List.replicate 31 0 ++ [1], ecChainCode := List.replicate 32 2,
    ecPrivateKey := List.replicate 31 0 ++ [1], ecPublicKey := [],
    edKey := List.replicate 31 0 ++ [1], edChainCode := List.replicate 32 2,
    edPrivateKey := List.replicate 31 0 ++ [1], edPublicKey := List.replicate 31 0 ++ [1] }

/-- The child `0` of `gateMaster` under `gateCrypto`: its scalar is 2. -/
def gateChild : ExtendedKey :=
  { ecKey := [2], ecChainCode := List.replicate 32 2,
    ecPrivateKey := [2], ecPublicKey := [],
    edKey := List.replicate 31 0 ++ [1], edChainCode := List.replicate 32 2,
    edPrivateKey := List.replicate 31 0 ++ [1], edPublicKey := List.replicate 31 0 ++ [1] }

/-- The child `7` of `stubMaster` under `stubCrypto`: `IL = 1` added to
the scalar `n - 1` gives `0`. -/
def stubChild : ExtendedKey :=
  { ecKey := [], ecChainCode := List.replicate 32 2, ecPrivateKey := [],
    ecPublicKey := [], edKey := List.replicate 31 0 ++ [1],
    edChainCode := List.replicate 32 2, edPrivateKey := List.replicate 31 0 ++ [1],
    edPublicKey := List.replicate 31 0 ++ [1] }

/-! ## The library primitives, for the known test vector -/

/-- Bytes of a lower-case hexadecimal digit. -/
def hexDigit (c : Char) : Nat :=
  if c.toNat ≥ 97 then c.toNat - 87 else c.toNat - 48

/-- Bytes written as pairs of hexadecimal digits. -/
def hexPairs : List Char → Bytes
  | a :: b :: rest => (hexDigit a * 16 + hexDigit b) :: hexPairs rest
  | _ => []

/-- Go `hex.DecodeString` on a lower-case hexadecimal literal. -/
def hex (s : String) : Bytes := hexPairs s.data

/-- Big-endian bytes of `v` on `n` bytes. -/
def beBytes : Nat → Nat → Bytes
  | 0, _ => []
  | n + 1, v => (v / 256 ^ n % 256) :: beBytes n v

/-- Little-endian integer of a byte list. -/
def leNat (b : Bytes) : Nat := b.foldr (fun x acc => x + 256 * acc) 0

/-- Little-endian bytes of `v` on `n` bytes. -/
def leBytes : Nat → Nat → Bytes
  | 0, _ => []
  | n + 1, v => (v % 256) :: leBytes n (v / 256)

/-- Round constants of SHA-512 (FIPS 180-4, section 4.2.3). -/
def sha512K : List Nat :=
  [0x428a2f98d728ae22, 0x7137449123ef65cd, 0xb5c0fbcfec4d3b2f, 0xe9b5dba58189dbbc,
   0x3956c25bf348b538, 0x59f111f1b605d019, 0x923f82a4af194f9b, 0xab1c5ed5da6d8118,
   0xd807aa98a3030242, 0x12835b0145706fbe, 0x243185be4ee4b28c, 0x550c7dc3d5ffb4e2,
   0x72be5d74f27b896f, 0x80deb1fe3b1696b1, 0x9bdc06a725c71235, 0xc19bf174cf692694,
   0xe49b69c19ef14ad2, 0xefbe4786384f25e3, 0x0fc19dc68b8cd5b5, 0x240ca1cc77ac9c65,
   0x2de92c6f592b0275, 0x4a7484aa6ea6e483, 0x5cb0a9dcbd41fbd4, 0x76f988da831153b5,
   0x983e5152ee66dfab, 0xa831c66d2db43210, 0xb00327c898fb213f, 0xbf597fc7beef0ee4,
   0xc6e00bf33da88fc2, 0xd5a79147930aa725, 0x06ca6351e003826f, 0x142929670a0e6e70,
   0x27b70a8546d22ffc, 0x2e1b21385c26c926, 0x4d2c6dfc5ac42aed, 0x53380d139d95b3df,
   0x650a73548baf63de, 0x766a0abb3c77b2a8, 0x81c2c92e47edaee6, 0x92722c851482353b,
   0xa2bfe8a14cf10364, 0xa81a664bbc423001, 0xc24b8b70d0f89791, 0xc76c51a30654be30,
   0xd192e819d6ef5218, 0xd69906245565a910, 0xf40e35855771202a, 0x106aa07032bbd1b8,
   0x19a4c116b8d2d0c8, 0x1e376c085141ab53, 0x2748774cdf8eeb99, 0x34b0bcb5e19b48a8,
   0x391c0cb3c5c95a63, 0x4ed8aa4ae3418acb, 0x5b9cca4f7763e373, 0x682e6ff3d6b2b8a3,
   0x748f82ee5defb2fc, 0x78a5636f43172f60, 0x84c87814a1f0ab72, 0x8cc702081a6439ec,
   0x90befffa23631e28, 0xa4506cebde82bde9, 0xbef9a3f7b2c67915, 0xc67178f2e372532b,
   0xca273eceea26619c, 0xd186b8c721c0c207, 0xeada7dd6cde0eb1e, 0xf57d4f7fee6ed178,
   0x06f067aa72176fba, 0x0a637dc5a2c898a6, 0x113f9804bef90dae, 0x1b710b35131c471b,
   0x28db77f523047d84, 0x32caab7b40c72493, 0x3c9ebe0a15c9bebc, 0x431d67c49c100d4c,
   0x4cc5d4becb3e42b6, 0x597f299cfc657e2a, 0x5fcb6fab3ad6faec, 0x6c44198c4a475817]

/-- Initial hash value of SHA-512 (FIPS 180-4, section 5.3.5). -/
def sha512H0 : List Nat :=
  [0x6a09e667f3bcc908, 0xbb67ae8584caa73b, 0x3c6ef372fe94f82b, 0xa54ff53a5f1d36f1,
   0x510e527fade682d1, 0x9b05688c2b3e6c1f, 0x1f83d9abfb41bd6b, 0x5be0cd19137e2179]

/-- Addition of 64-bit words. The word operations are written with the
primitive functions of `Nat`, which evaluate directly. -/
def add64 (a b : Nat) : Nat := Nat.mod (Nat.add a b) 18446744073709551616

/-- Rotation of a 64-bit word to the right. -/
def rotr64 (x n : Nat) : Nat :=
  Nat.mod (Nat.lor (Nat.shiftRight x n) (Nat.shiftLeft x (Nat.sub 64 n))) 18446744073709551616

/-- The function `Σ0` of SHA-512. -/
def bigSigma0 (x : Nat) : Nat := Nat.xor (Nat.xor (rotr64 x 28) (rotr64 x 34)) (rotr64 x 39)

/-- The function `Σ1` of SHA-512. -/
def bigSigma1 (x : Nat) : Nat := Nat.xor (Nat.xor (rotr64 x 14) (rotr64 x 18)) (rotr64 x 41)

/-- The function `σ0` of SHA-512. -/
def smallSigma0 (x : Nat) : Nat :=
  Nat.xor (Nat.xor (rotr64 x 1) (rotr64 x 8)) (Nat.shiftRight x 7)

/-- The function `σ1` of SHA-512. -/
def smallSigma1 (x : Nat) : Nat :=
  Nat.xor (Nat.xor (rotr64 x 19) (rotr64 x 61)) (Nat.shiftRight x 6)

/-- The function `Ch` of SHA-512. -/
def ch (x y z : Nat) : Nat :=
  Nat.xor (Nat.land x y) (Nat.land (Nat.xor x 18446744073709551615) z)

/-- The function `Maj` of SHA-512. -/
def maj (x y z : Nat) : Nat :=
  Nat.xor (Nat.xor (Nat.land x y) (Nat.land x z)) (Nat.land y z)

/-- The rounds of the SHA-512 compression function (FIPS 180-4, section
6.4.2): the round constants left, the working variables `a` to `h`, and the
sixteen message schedule words from the current one on. The word sixteen
places ahead is `σ1(W[t-2]) + W[t-7] + σ0(W[t-15]) + W[t-16]`. -/
def sha512Rounds : List Nat → Nat → Nat → Nat → Nat → Nat → Nat → Nat → Nat →
    Nat → Nat → Nat → Nat → Nat → Nat → Nat → Nat →
    Nat → Nat → Nat → Nat → Nat → Nat → Nat → Nat → List Nat
  | [], a, b, c, d, e, f, g, h, _, _, _, _, _, _, _, _, _, _, _, _, _, _, _, _ =>
    [a, b, c, d, e, f, g, h]
  | k :: ks, a, b, c, d, e, f, g, h,
      w0, w1, w2, w3, w4, w5, w6, w7, w8, w9, w10, w11, w12, w13, w14, w15 =>
    let t1 := add64 (add64 (add64 (add64 h (bigSigma1 e)) (ch e f g)) k) w0
    let t2 := add64 (bigSigma0 a) (maj a b c)
    let wn := add64 (add64 (add64 (smallSigma1 w14) w9) (smallSigma0 w1)) w0
    sha512Rounds ks (add64 t1 t2) a b c (add64 d t1) e f g
      w1 w2 w3 w4 w5 w6 w7 w8 w9 w10 w11 w12 w13 w14 w15 wn

/-- The 64-bit word number `i` of a block. -/
def blockWord (block : Bytes) (i : Nat) : Nat := SetBytes ((block.drop (8 * i)).take 8)

/-- The SHA-512 compression function on one 128-byte block. -/
def sha512Compress (h : List Nat) (block : Bytes) : List Nat :=
  List.zipWith add64 h
    (sha512Rounds sha512K (h.getD 0 0) (h.getD 1 0) (h.getD 2 0) (h.getD 3 0)
      (h.getD 4 0) (h.getD 5 0) (h.getD 6 0) (h.getD 7 0)
      (blockWord block 0) (blockWord block 1) (blockWord block 2) (blockWord block 3)
      (blockWord block 4) (blockWord block 5) (blockWord block 6) (blockWord block 7)
      (blockWord block 8) (blockWord block 9) (blockWord block 10) (blockWord block 11)
      (blockWord block 12) (blockWord block 13) (blockWord block 14) (blockWord block 15))

/-- Compression of `n` successive blocks of `m`. -/
def sha512Blocks : Nat → List Nat → Bytes → List Nat
  | 0, h, _ => h
  | n + 1, h, m => sha512Blocks n (sha512Compress h (m.take 128)) (m.drop 128)

/-- Padding of SHA-512: a `0x80` byte, zero bytes up to 112 modulo 128, the
bit length on 16 bytes. -/
def sha512Pad (m : Bytes) : Bytes :=
  m ++ [0x80] ++ List.replicate ((239 - m.length % 128) % 128) 0 ++ beBytes 16 (8 * m.length)

/-- SHA-512 (FIPS 180-4), as Go `crypto/sha512` computes it. -/
def sha512 (m : Bytes) : Bytes :=
  let p := sha512Pad m
  (sha512Blocks (p.length / 128) sha512H0 p).flatMap (beBytes 8)

/-- Function `hmacSHA512` of `hash.go` over the real `crypto/hmac` and
`crypto/sha512`: HMAC (RFC 2104) with block size 128. -/
def hmacSHA512 (key data : Bytes) : Bytes :=
  let k := if key.length > 128 then sha512 key else key
  let k := k ++ List.replicate (128 - k.length) 0
  sha512 (k.map (fun b => b ^^^ 0x5c) ++ sha512 (k.map (fun b => b ^^^ 0x36) ++ data))

/-- Modular exponentiation by repeated squaring; `fuel` bounds the bit
length of the exponent. -/
def powModAux : Nat → Nat → Nat → Nat → Nat
  | 0, _, _, m => 1 % m
  | fuel + 1, a, e, m =>
    if e = 0 then 1 % m
    else
      let h := powModAux fuel a (e / 2) m
      if e % 2 = 0 then h * h % m else h * h % m * a % m

/-- The power `a ^ e` modulo `m`. -/
def powMod (a e m : Nat) : Nat := powModAux (e + 1) a e m

/-- Field prime of secp256k1 (SEC 2, section 2.4.1). -/
def secpP : Nat :=
  0xFFFFFFFFFFFFFFFFFFFFFFFFFFFFFFFFFFFFFFFFFFFFFFFFFFFFFFFEFFFFFC2F

/-- Base point of secp256k1, first coordinate (SEC 2, section 2.4.1). -/
def secpGx : Nat := 0x79BE667EF9DCBBAC55A06295CE870B07029BFCDB2DCE28D959F2815B16F81798

/-- Base point of secp256k1, second coordinate. -/
def secpGy : Nat := 0x483ADA7726A3C4655DA4FBFC0E1108A8FD17B448A68554199C47D08FFB10D4B8

/-- Subtraction modulo the field prime of secp256k1. -/
def subP (a b : Nat) : Nat := Nat.mod (Nat.sub (Nat.add a secpP) (Nat.mod b secpP)) secpP

/-- Multiplication modulo the field prime of secp256k1. -/
def mulP (a b : Nat) : Nat := Nat.mod (Nat.mul a b) secpP

/-- Doubling on `y^2 = x^3 + 7` in Jacobian coordinates `(X, Y, Z)`;
`Z = 0` is the point at infinity. -/
def secpDouble (p : Nat × Nat × Nat) : Nat × Nat × Nat :=
  let x := p.1
  let y := p.2.1
  let z := p.2.2
  if z = 0 ∨ y = 0 then (0, 1, 0)
  else
    let a := mulP x x
    let b := mulP y y
    let c := mulP b b
    let t := mulP (Nat.add x b) (Nat.add x b)
    let d := mulP 2 (subP (subP t a) c)
    let e := mulP 3 a
    let f := mulP e e
    let x3 := subP f (mulP 2 d)
    let y3 := subP (mulP e (subP d x3)) (mulP 8 c)
    let z3 := mulP 2 (mulP y z)
    (x3, y3, z3)

/-- Addition on `y^2 = x^3 + 7` in Jacobian coordinates. -/
def secpAdd (p q : Nat × Nat × Nat) : Nat × Nat × Nat :=
  let x1 := p.1
  let y1 := p.2.1
  let z1 := p.2.2
  let x2 := q.1
  let y2 := q.2.1
  let z2 := q.2.2
  if z1 = 0 then q
  else if z2 = 0 then p
  else
    let z1z1 := mulP z1 z1
    let z2z2 := mulP z2 z2
    let u1 := mulP x1 z2z2
    let u2 := mulP x2 z1z1
    let s1 := mulP (mulP y1 z2) z2z2
    let s2 := mulP (mulP y2 z1) z1z1
    if u1 = u2 then
      if s1 = s2 then secpDouble p else (0, 1, 0)
    else
      let h := subP u2 u1
      let r := subP s2 s1
      let hh := mulP h h
      let hhh := mulP hh h
      let v := mulP u1 hh
      let x3 := subP (subP (mulP r r) hhh) (mulP 2 v)
      let y3 := subP (mulP r (subP v x3)) (mulP s1 hhh)
      let z3 := mulP (mulP z1 z2) h
      (x3, y3, z3)

/-- Double-and-add from the most significant bit; `fuel` bounds the bit
length of `k`. -/
def secpMulAux : Nat → Nat → Nat × Nat × Nat → Nat × Nat × Nat
  | 0, _, _ => (0, 1, 0)
  | fuel + 1, k, g =>
    if k = 0 then (0, 1, 0)
    else
      let r := secpDouble (secpMulAux fuel (k / 2) g)
      if k % 2 = 1 then secpAdd r g else r

/-- Affine coordinates of `k * G` on secp256k1 for `k < 2^256`; the point at
infinity gives `(0, 0)`. -/
def secpBaseMult (k : Nat) : Nat × Nat :=
  let r := secpMulAux 256 (k % 2 ^ 256) (secpGx, secpGy, 1)
  if r.2.2 = 0 then (0, 0)
  else
    let zi := powMod r.2.2 (secpP - 2) secpP
    let zi2 := mulP zi zi
    (mulP r.1 zi2, mulP r.2.1 (mulP zi2 zi))

/-- Field prime of ed25519 (RFC 8032, section 5.1). -/
def edQ : Nat :=
  0x7FFFFFFFFFFFFFFFFFFFFFFFFFFFFFFFFFFFFFFFFFFFFFFFFFFFFFFFFFFFFFED

/-- Curve constant `d = -121665/121666` of ed25519. -/
def edD : Nat :=
  37095705934669439343138083508754565189542113879843219016388785533085940283555

/-- Base point of ed25519, first coordinate. -/
def edBx : Nat :=
  15112221349535400772501151409588531511454012693041857206046113283949847762202

/-- Base point of ed25519, second coordinate (`4/5`). -/
def edBy : Nat :=
  46316835694926478169428394003475163141307993866256225615783033603165251855960

/-- Subtraction modulo the field prime of ed25519. -/
def subQ (a b : Nat) : Nat := Nat.mod (Nat.sub (Nat.add a edQ) (Nat.mod b edQ)) edQ

/-- Multiplication modulo the field prime of ed25519. -/
def mulQ (a b : Nat) : Nat := Nat.mod (Nat.mul a b) edQ

/-- Addition on the twisted Edwards curve `-x^2 + y^2 = 1 + d x^2 y^2` in
extended coordinates `(X, Y, Z, T)` (RFC 8032, section 5.1.4). -/
def edAdd (p q : Nat × Nat × Nat × Nat) : Nat × Nat × Nat × Nat :=
  let a := mulQ (subQ p.2.1 p.1) (subQ q.2.1 q.1)
  let b := mulQ (Nat.add p.2.1 p.1) (Nat.add q.2.1 q.1)
  let c := mulQ (mulQ p.2.2.2 (mulQ 2 edD)) q.2.2.2
  let d := mulQ (mulQ p.2.2.1 2) q.2.2.1
  let e := subQ b a
  let f := subQ d c
  let g := Nat.mod (Nat.add d c) edQ
  let h := Nat.mod (Nat.add b a) edQ
  (mulQ e f, mulQ g h, mulQ f g, mulQ e h)

/-- Double-and-add on ed25519 from the most significant bit. -/
def edMulAux : Nat → Nat → Nat × Nat × Nat × Nat → Nat × Nat × Nat × Nat
  | 0, _, _ => (0, 1, 1, 0)
  | fuel + 1, k, g =>
    if k = 0 then (0, 1, 1, 0)
    else
      let r := edMulAux fuel (k / 2) g
      let r := edAdd r r
      if k % 2 = 1 then edAdd r g else r

/-- Public key of an ed25519 seed (RFC 8032, section 5.1.5): hash the seed,
clamp the lower half, multiply the base point, encode `y` with the sign of
`x` in the top bit. -/
def edPublicFromSeed (seed : Bytes) : Bytes :=
  let h := (sha512 seed).take 32
  let s := leNat h
  let s := (s % 2 ^ 255) / 8 * 8 % 2 ^ 254 + 2 ^ 254
  let r := edMulAux 256 s (edBx, edBy, 1, mulQ edBx edBy)
  let zi := powMod r.2.2.1 (edQ - 2) edQ
  let x := mulQ r.1 zi
  let y := mulQ r.2.1 zi
  leBytes 32 (y + x % 2 * 2 ^ 255)

/-- Compressed serialization of a secp256k1 public key by btcec: the byte
`0x02` or `0x03` by the parity of `y`, then `x` on 32 bytes. -/
def serializeCompressed (p : Nat × Nat) : Bytes := (2 + p.2 % 2) :: beBytes 32 p.1

/-- The primitives as the libraries compute them. `hmacSHA512` is HMAC-SHA512;
`curve.ScalarBaseMult` reduces its scalar modulo the group order;
`btcec.PrivKeyFromBytes` reads at most 32 bytes as a scalar modulo the group
order and is given by the serialized private and compressed public key;
`ed25519.NewKeyFromSeed` is the seed followed by the public key, `Public` its
last 32 bytes. -/
def realCrypto : Crypto where
  hmacSHA512 := hmacSHA512
  ScalarBaseMult k :=
    let p := secpBaseMult (SetBytes k % curveOrder)
    ((p.1 : Int), (p.2 : Int))
  PrivKeyFromBytes b :=
    let k := SetBytes (b.take 32) % curveOrder
    (beBytes 32 k, serializeCompressed (secpBaseMult k))
  NewKeyFromSeed seed := seed ++ edPublicFromSeed seed
  Public priv := priv.drop 32

/-- What the test reads from a returned key: the serialized ECDSA private and
public key and the EdDSA private and public key. -/
def keyMaterial (o : Outcome ExtendedKey) : Outcome (Bytes × Bytes × Bytes × Bytes) :=
  o.andThen (fun k => .ok (k.ecPrivateKey, k.ecPublicKey, k.edPrivateKey, k.edPublicKey))

/-! ## Helper lemmas -/

theorem Split_head (sep : Nat) (s : Bytes) :
    ∃ rest, Split sep s = s.takeWhile (fun b => decide (b ≠ sep)) :: rest := by
  induction s with
  | nil => exact ⟨[], rfl⟩
  | cons c cs ih =>
    obtain ⟨rest, hrest⟩ := ih
    by_cases h : c = sep
    · exact ⟨Split sep cs, by simp [Split, h]⟩
    · exact ⟨rest, by simp [Split, h, hrest]⟩

theorem foldDerive_stuck_err (c : Crypto) (e : GoError) (l : List Nat) :
    l.foldl (fun acc i => Outcome.andThen acc (fun k => Derive c k i)) (Outcome.err e)
      = Outcome.err e := by
  induction l with
  | nil => rfl
  | cons i is ih => simpa [List.foldl, Outcome.andThen] using ih

theorem foldDerive_stuck_panic (c : Crypto) (l : List Nat) :
    l.foldl (fun acc i => Outcome.andThen acc (fun k => Derive c k i))
      (Outcome.panicked : Outcome ExtendedKey) = Outcome.panicked := by
  induction l with
  | nil => rfl
  | cons i is ih => simpa [List.foldl, Outcome.andThen] using ih

theorem DerivePaths_eq_foldDerive (c : Crypto) (l : List Nat) (key : ExtendedKey) :
    DerivePaths c key l = foldDerive c key l := by
  induction l generalizing key with
  | nil => rfl
  | cons i is ih =>
    unfold foldDerive at ih ⊢
    simp only [DerivePaths, List.foldl, Outcome.andThen]
    cases hd : Derive c key i with
    | ok k => simpa using ih k
    | err e => simpa using (foldDerive_stuck_err c e is).symm
    | panicked => simpa using (foldDerive_stuck_panic c is).symm

theorem decimalLoop_acc (fuel : Nat) : ∀ (n : Nat) (acc : Bytes),
    decimalLoop fuel n acc = decimalLoop fuel n [] ++ acc := by
  induction fuel with
  | zero => intro n acc; simp [decimalLoop]
  | succ f ih =>
    intro n acc
    by_cases h : n < 10
    · simp [decimalLoop, h]
    · simp only [decimalLoop, h, if_false]
      rw [ih (n / 10) ((48 + n % 10) :: acc), ih (n / 10) [48 + n % 10]]
      simp

theorem decimalValue_append (s t : Bytes) (acc : Nat) :
    decimalValue (s ++ t) acc = decimalValue t (decimalValue s acc) := by
  simp [decimalValue, List.foldl_append]

theorem decimalLoop_digits (fuel : Nat) : ∀ n, n < fuel →
    decimalLoop fuel n [] ≠ [] ∧ (∀ b ∈ decimalLoop fuel n [], 48 ≤ b ∧ b ≤ 57) ∧
      decimalValue (decimalLoop fuel n []) 0 = n := by
  induction fuel with
  | zero => intro n h; omega
  | succ f ih =>
    intro n hn
    by_cases h : n < 10
    · simp only [decimalLoop, h, if_true]
      refine ⟨by simp, ?_, ?_⟩
      · intro b hb
        simp only [List.mem_singleton] at hb
        omega
      · simp [decimalValue]
    · simp only [decimalLoop, h, if_false]
      rw [decimalLoop_acc]
      obtain ⟨_, hd, hv⟩ := ih (n / 10) (by omega)
      refine ⟨by simp, ?_, ?_⟩
      · intro b hb
        rcases List.mem_append.mp hb with hb | hb
        · exact hd b hb
        · simp only [List.mem_singleton] at hb
          omega
      · rw [decimalValue_append, hv]
        simp only [decimalValue, List.foldl]
        omega

theorem decimal_digits (n : Nat) :
    decimal n ≠ [] ∧ (∀ b ∈ decimal n, 48 ≤ b ∧ b ≤ 57) ∧ decimalValue (decimal n) 0 = n :=
  decimalLoop_digits (n + 1) n (Nat.lt_succ_self n)

theorem decimalValue_ge (s : Bytes) : ∀ acc, acc ≤ decimalValue s acc := by
  induction s with
  | nil => intro acc; simp [decimalValue]
  | cons c cs ih =>
    intro acc
    have h := ih (acc * 10 + (c - 48))
    simp only [decimalValue, List.foldl] at h ⊢
    omega

theorem parseUintLoop_digits (maxVal : Nat) (hmax : maxVal < 2 ^ 64) (s : Bytes) :
    ∀ acc, (∀ b ∈ s, 48 ≤ b ∧ b ≤ 57) → decimalValue s acc ≤ maxVal →
      parseUintLoop maxVal s acc = some (decimalValue s acc) := by
  induction s with
  | nil => intro acc _ _; simp [parseUintLoop, decimalValue]
  | cons c cs ih =>
    intro acc hd hv
    have hc := hd c (List.mem_cons_self c cs)
    have hge := decimalValue_ge cs (acc * 10 + (c - 48))
    have hstep : decimalValue (c :: cs) acc = decimalValue cs (acc * 10 + (c - 48)) := rfl
    rw [hstep] at hv ⊢
    have h1 : ¬ acc ≥ (2 ^ 64 - 1) / 10 + 1 := by norm_num at hmax ⊢; omega
    have h2 : (acc * 10 + (c - 48)) % 2 ^ 64 = acc * 10 + (c - 48) :=
      Nat.mod_eq_of_lt (by omega)
    have h3 : ¬ (acc * 10 + (c - 48) < acc * 10 ∨ acc * 10 + (c - 48) > maxVal) := by omega
    simp only [parseUintLoop, hc, and_self, if_true, h1, if_false, h2, h3]
    exact ih _ (fun b hb => hd b (List.mem_cons_of_mem c hb)) hv

theorem ParseUint_decimal (n : Nat) (h : n < 2 ^ 32) : ParseUint (decimal n) 32 = some n := by
  obtain ⟨hne, hd, hv⟩ := decimal_digits n
  unfold ParseUint
  rw [if_neg hne, parseUintLoop_digits _ (by norm_num) _ 0 hd (by rw [hv]; omega), hv]

theorem Split_nosep (sep : Nat) (s : Bytes) (h : ∀ b ∈ s, b ≠ sep) : Split sep s = [s] := by
  induction s with
  | nil => rfl
  | cons c cs ih =>
    have hc : c ≠ sep := h c (List.mem_cons_self c cs)
    simp [Split, hc, ih (fun b hb => h b (List.mem_cons_of_mem c hb))]

theorem Split_append_sep (sep : Nat) (s rest : Bytes) (h : ∀ b ∈ s, b ≠ sep) :
    Split sep (s ++ sep :: rest) = s :: Split sep rest := by
  induction s with
  | nil => simp [Split]
  | cons c cs ih =>
    have hc : c ≠ sep := h c (List.mem_cons_self c cs)
    simp [Split, hc, ih (fun b hb => h b (List.mem_cons_of_mem c hb))]

theorem segmentText_nosep (p : Nat × Bool) : ∀ b ∈ segmentText p, b ≠ 47 := by
  intro b hb
  obtain ⟨_, hd, _⟩ := decimal_digits p.1
  unfold segmentText at hb
  rcases List.mem_append.mp hb with hb | hb
  · have := hd b hb; omega
  · cases hp : p.2 <;> simp [hp, ascii] at hb
    subst hb; decide

theorem Split_segmentsText (l : List (Nat × Bool)) : ∀ (body : Bytes),
    (∀ b ∈ body, b ≠ 47) → Split 47 (body ++ segmentsText l) = body :: l.map segmentText := by
  induction l with
  | nil => intro body hb; simpa [segmentsText] using Split_nosep 47 body hb
  | cons p ps ih =>
    intro body hb
    simp only [segmentsText, List.map_cons]
    rw [Split_append_sep 47 body _ hb, ih (segmentText p) (segmentText_nosep p)]

theorem parseSegments_segmentText (l : List (Nat × Bool)) : ∀ (acc : List Nat),
    (∀ p ∈ l, p.1 < 2 ^ 31) →
      parseSegments (l.map segmentText) acc = .ok (acc ++ l.map segmentIndex) := by
  induction l with
  | nil => intro acc _; simp [parseSegments]
  | cons p ps ih =>
    intro acc h
    obtain ⟨n, hard⟩ := p
    have hn : n < 2 ^ 31 := h (n, hard) (List.mem_cons_self _ _)
    have hps : ∀ q ∈ ps, q.1 < 2 ^ 31 := fun q hq => h q (List.mem_cons_of_mem _ hq)
    obtain ⟨hne, hd, _⟩ := decimal_digits n
    have hparse := ParseUint_decimal n (by omega)
    simp only [List.map_cons, parseSegments]
    cases hard with
    | true =>
      have hl : (segmentText (n, true)).getLast? = some 39 := by
        simp [segmentText, ascii]
      have hdrop : (segmentText (n, true)).dropLast = decimal n := by
        simp [segmentText, ascii]
      simp only [hl, if_true, hdrop, hparse]
      rw [ih _ hps]
      have : (HardenedKeyStart + n % 2 ^ 32) % 2 ^ 32 = segmentIndex (n, true) := by
        simp only [HardenedKeyStart, segmentIndex, if_true]; omega
      rw [this]
      simp
    | false =>
      have htxt : segmentText (n, false) = decimal n := by simp [segmentText]
      rw [htxt]
      cases hlast : (decimal n).getLast? with
      | none => exact absurd (List.getLast?_eq_none_iff.mp hlast) hne
      | some b =>
        have hb := hd b (List.mem_of_getLast?_eq_some hlast)
        have hb39 : b ≠ 39 := by omega
        simp only [hb39, if_false, hparse]
        rw [ih _ hps]
        have : (0 + n % 2 ^ 32) % 2 ^ 32 = segmentIndex (n, false) := by
          simp only [segmentIndex]; simp; omega
        rw [this]
        simp

theorem bytesLoop_acc (fuel : Nat) : ∀ (n : Nat) (acc : Bytes),
    bytesLoop fuel n acc = bytesLoop fuel n [] ++ acc := by
  induction fuel with
  | zero => intro n acc; simp [bytesLoop]
  | succ f ih =>
    intro n acc
    by_cases h : n = 0
    · simp [bytesLoop, h]
    · simp only [bytesLoop, h, if_false]
      rw [ih (n / 256) (n % 256 :: acc), ih (n / 256) [n % 256]]
      simp

theorem SetBytes_append_singleton (s : Bytes) (b : Nat) :
    SetBytes (s ++ [b]) = SetBytes s * 256 + b := by
  simp [SetBytes, List.foldl_append]

theorem bytesLoop_spec (fuel : Nat) : ∀ n, n ≤ fuel →
    SetBytes (bytesLoop fuel n []) = n ∧ (∀ b ∈ bytesLoop fuel n [], b < 256) ∧
      (∀ k, n < 256 ^ k → (bytesLoop fuel n []).length ≤ k) := by
  induction fuel with
  | zero =>
    intro n h
    have : n = 0 := by omega
    subst this
    simp [bytesLoop, SetBytes]
  | succ f ih =>
    intro n hn
    by_cases h : n = 0
    · subst h
      simp [bytesLoop, SetBytes]
    · simp only [bytesLoop, h, if_false]
      rw [bytesLoop_acc]
      obtain ⟨hv, hb, hl⟩ := ih (n / 256) (by omega)
      refine ⟨?_, ?_, ?_⟩
      · rw [SetBytes_append_singleton, hv]; omega
      · intro b hmem
        rcases List.mem_append.mp hmem with hmem | hmem
        · exact hb b hmem
        · simp only [List.mem_singleton] at hmem
          omega
      · intro k hk
        cases k with
        | zero => simp at hk; omega
        | succ k =>
          have : n / 256 < 256 ^ k := by
            rw [Nat.div_lt_iff_lt_mul (by norm_num)]
            rw [pow_succ] at hk
            exact hk
          have := hl k this
          simp only [List.length_append, List.length_singleton]
          omega

theorem SetBytes_natBytes (n : Nat) : SetBytes (natBytes n) = n :=
  (bytesLoop_spec n n (Nat.le_refl n)).1

theorem natBytes_lt (n : Nat) : ∀ b ∈ natBytes n, b < 256 :=
  (bytesLoop_spec n n (Nat.le_refl n)).2.1

theorem natBytes_length_le (n k : Nat) (h : n < 256 ^ k) : (natBytes n).length ≤ k :=
  (bytesLoop_spec n n (Nat.le_refl n)).2.2 k h

theorem SetBytes_replicate_zero_append (m : Nat) (s : Bytes) :
    SetBytes (List.replicate m 0 ++ s) = SetBytes s := by
  induction m with
  | zero => simp
  | succ m ih =>
    simp only [List.replicate_succ, List.cons_append]
    unfold SetBytes at ih ⊢
    simpa [List.foldl] using ih

theorem NewExtendedKey_master_fields (c : Crypto) (seed : Bytes) (k0 : ExtendedKey)
    (h : NewExtendedKey c seed = .ok k0) :
    (16 ≤ seed.length ∧ seed.length ≤ 64) ∧
    k0.ecKey = (c.hmacSHA512 (ascii "Bitcoin seed") seed).take 32 ∧
    k0.ecChainCode = (c.hmacSHA512 (ascii "Bitcoin seed") seed).drop 32 ∧
    k0.edKey = (c.hmacSHA512 (ascii "ed25519 seed") seed).take 32 ∧
    k0.edChainCode = (c.hmacSHA512 (ascii "ed25519 seed") seed).drop 32 := by
  unfold NewExtendedKey MinSeedBytes MaxSeedBytes at h
  simp only at h
  split at h
  · cases h
  · rename_i hlen
    cases h
    exact ⟨by omega, rfl, rfl, rfl, rfl⟩

theorem gateCrypto_hmac_length (k d : Bytes) : (gateCrypto.hmacSHA512 k d).length = 64 := by
  unfold gateCrypto
  simp only
  split <;> simp

theorem Derive_lengths (c : Crypto) (h64 : ∀ k d, (c.hmacSHA512 k d).length = 64)
    (key child : ExtendedKey) (i : Nat) (h : Derive c key i = .ok child) :
    child.ecChainCode.length = 32 ∧ child.edChainCode.length = 32 ∧
      child.edKey.length = 32 := by
  unfold Derive at h
  simp only at h
  split at h
  · cases h
  · cases h
    simp [h64]

theorem DerivePaths_lengths (c : Crypto) (h64 : ∀ k d, (c.hmacSHA512 k d).length = 64)
    (path : List Nat) : ∀ (k0 k : ExtendedKey),
    (k0.ecChainCode.length = 32 ∧ k0.edChainCode.length = 32 ∧ k0.edKey.length = 32) →
    DerivePaths c k0 path = .ok k →
    k.ecChainCode.length = 32 ∧ k.edChainCode.length = 32 ∧ k.edKey.length = 32 := by
  induction path with
  | nil =>
    intro k0 k h0 hk
    simp only [DerivePaths, Outcome.ok.injEq] at hk
    subst hk
    exact h0
  | cons i rest ih =>
    intro k0 k _ hk
    simp only [DerivePaths] at hk
    cases hd : Derive c k0 i with
    | ok k1 =>
      rw [hd] at hk
      exact ih k1 k (Derive_lengths c h64 k0 k1 i hd) hk
    | err e => rw [hd] at hk; cases hk
    | panicked => rw [hd] at hk; cases hk

theorem powModAux_eq (fuel : Nat) : ∀ (a e m : Nat), e < 2 ^ fuel →
    powModAux fuel a e m = a ^ e % m := by
  induction fuel with
  | zero =>
    intro a e m h
    have : e = 0 := by simpa using h
    subst this
    simp [powModAux]
  | succ f ih =>
    intro a e m h
    by_cases he : e = 0
    · subst he; simp [powModAux]
    · have hlt : e / 2 < 2 ^ f := by
        rw [Nat.div_lt_iff_lt_mul (by norm_num)]
        rw [pow_succ] at h
        exact h
      simp only [powModAux, he, if_false]
      rw [ih a (e / 2) m hlt]
      have hsplit : e = 2 * (e / 2) + e % 2 := (Nat.div_add_mod e 2).symm
      by_cases hpar : e % 2 = 0
      · simp only [hpar, if_true]
        have : a ^ e = a ^ (e / 2) * a ^ (e / 2) := by
          rw [← pow_add]; congr 1; omega
        rw [this]
        exact (Nat.mul_mod _ _ _).symm
      · simp only [hpar, if_false]
        have h1 : e % 2 = 1 := by omega
        have : a ^ e = a ^ (e / 2) * a ^ (e / 2) * a := by
          rw [← pow_add, ← pow_succ]; congr 1; omega
        rw [this, ← Nat.mul_mod (a ^ (e / 2)) (a ^ (e / 2)) m]
        exact Nat.mod_mul_mod

theorem powMod_eq (a e m : Nat) : powMod a e m = a ^ e % m :=
  powModAux_eq (e + 1) a e m (by
    have := Nat.lt_two_pow e
    calc e < 2 ^ e := this
      _ ≤ 2 ^ (e + 1) := Nat.pow_le_pow_right (by norm_num) (by omega))

theorem prime_of_certificate (p a : Nat) (fl : List Nat) (hp : 2 ≤ p)
    (hprod : fl.prod = p - 1) (hfl : ∀ q ∈ fl, Nat.Prime q)
    (h1 : powMod a (p - 1) p = 1) (hq : ∀ q ∈ fl, powMod a ((p - 1) / q) p ≠ 1) :
    Nat.Prime p := by
  have key : ∀ e : Nat, ((a : ZMod p)) ^ e = 1 ↔ powMod a e p = 1 := by
    intro e
    rw [powMod_eq]
    have h1p : (1 : Nat) % p = 1 := Nat.mod_eq_of_lt (by omega)
    constructor
    · intro h
      have h' : ((a ^ e : Nat) : ZMod p) = ((1 : Nat) : ZMod p) := by
        push_cast; exact h
      have := (ZMod.natCast_eq_natCast_iff' _ _ _).mp h'
      rw [this, h1p]
    · intro h
      have h' : ((a ^ e : Nat) : ZMod p) = ((1 : Nat) : ZMod p) := by
        rw [ZMod.natCast_eq_natCast_iff']
        rw [h, h1p]
      push_cast at h'
      exact h'
  apply lucas_primality p (a : ZMod p) ((key _).mpr h1)
  intro q hqp hqd
  rw [← hprod] at hqd
  obtain ⟨r, hr, hqr⟩ := (Prime.dvd_prod_iff (Nat.Prime.prime hqp)).mp hqd
  have : q = r := (Nat.prime_dvd_prime_iff_eq hqp (hfl r hr)).mp hqr
  subst this
  intro h
  exact hq q hr ((key _).mp h)

/-- Lucas test with base 10: `1206781` is prime. -/
theorem prime_1206781 : Nat.Prime 1206781 :=
  prime_of_certificate _ 10
    [2, 2, 3, 5, 20113]
    (by decide!) (by decide!)
    (List.forall_mem_cons.mpr ⟨by norm_num,
     List.forall_mem_cons.mpr ⟨by norm_num,
     List.forall_mem_cons.mpr ⟨by norm_num,
     List.forall_mem_cons.mpr ⟨by norm_num,
     List.forall_mem_cons.mpr ⟨by norm_num,
     fun _ h => absurd h (List.not_mem_nil _)⟩⟩⟩⟩⟩)
    (by decide!) (by decide!)

/-- Lucas test with base 3: `7240687` is prime. -/
theorem prime_7240687 : Nat.Prime 7240687 :=
  prime_of_certificate _ 3
    [2, 3, 1206781]
    (by decide!) (by decide!)
    (List.forall_mem_cons.mpr ⟨by norm_num,
     List.forall_mem_cons.mpr ⟨by norm_num,
     List.forall_mem_cons.mpr ⟨prime_1206781,
     fun _ h => absurd h (List.not_mem_nil _)⟩⟩⟩)
    (by decide!) (by decide!)

/-- Lucas test with base 13: `13331831` is prime. -/
theorem prime_13331831 : Nat.Prime 13331831 :=
  prime_of_certificate _ 13
    [2, 5, 971, 1373]
    (by decide!) (by decide!)
    (List.forall_mem_cons.mpr ⟨by norm_num,
     List.forall_mem_cons.mpr ⟨by norm_num,
     List.forall_mem_cons.mpr ⟨by norm_num,
     List.forall_mem_cons.mpr ⟨by norm_num,
     fun _ h => absurd h (List.not_mem_nil _)⟩⟩⟩⟩)
    (by decide!) (by decide!)

/-- Lucas test with base 3: `107590001` is prime. -/
theorem prime_107590001 : Nat.Prime 107590001 :=
  prime_of_certificate _ 3
    [2, 2, 2, 2, 5, 5, 5, 5, 7, 29, 53]
    (by decide!) (by decide!)
    (List.forall_mem_cons.mpr ⟨by norm_num,
     List.forall_mem_cons.mpr ⟨by norm_num,
     List.forall_mem_cons.mpr ⟨by norm_num,
     List.forall_mem_cons.mpr ⟨by norm_num,
     List.forall_mem_cons.mpr ⟨by norm_num,
     List.forall_mem_cons.mpr ⟨by norm_num,
     List.forall_mem_cons.mpr ⟨by norm_num,
     List.forall_mem_cons.mpr ⟨by norm_num,
     List.forall_mem_cons.mpr ⟨by norm_num,
     List.forall_mem_cons.mpr ⟨by norm_num,
     List.forall_mem_cons.mpr ⟨by norm_num,
     fun _ h => absurd h (List.not_mem_nil _)⟩⟩⟩⟩⟩⟩⟩⟩⟩⟩⟩)
    (by decide!) (by decide!)

/-- Lucas test with base 6: `173378833005251801` is prime. -/
theorem prime_18_digits : Nat.Prime 173378833005251801 :=
  prime_of_certificate _ 6
    [2, 2, 2, 5, 5, 2621, 24809, 13331831]
    (by decide!) (by decide!)
    (List.forall_mem_cons.mpr ⟨by norm_num,
     List.forall_mem_cons.mpr ⟨by norm_num,
     List.forall_mem_cons.mpr ⟨by norm_num,
     List.forall_mem_cons.mpr ⟨by norm_num,
     List.forall_mem_cons.mpr ⟨by norm_num,
     List.forall_mem_cons.mpr ⟨by norm_num,
     List.forall_mem_cons.mpr ⟨by norm_num,
     List.forall_mem_cons.mpr ⟨prime_13331831,
     fun _ h => absurd h (List.not_mem_nil _)⟩⟩⟩⟩⟩⟩⟩⟩)
    (by decide!) (by decide!)

/-- Lucas test with base 5: `22149492674086928081353` is prime. -/
theorem prime_23_digits : Nat.Prime 22149492674086928081353 :=
  prime_of_certificate _ 5
    [2, 2, 2, 3, 5323, 173378833005251801]
    (by decide!) (by decide!)
    (List.forall_mem_cons.mpr ⟨by norm_num,
     List.forall_mem_cons.mpr ⟨by norm_num,
     List.forall_mem_cons.mpr ⟨by norm_num,
     List.forall_mem_cons.mpr ⟨by norm_num,
     List.forall_mem_cons.mpr ⟨by norm_num,
     List.forall_mem_cons.mpr ⟨prime_18_digits,
     fun _ h => absurd h (List.not_mem_nil _)⟩⟩⟩⟩⟩⟩)
    (by decide!) (by decide!)

/-- Lucas test with base 6: `132896956044521568488119` is prime. -/
theorem prime_24_digits : Nat.Prime 132896956044521568488119 :=
  prime_of_certificate _ 6
    [2, 3, 22149492674086928081353]
    (by decide!) (by decide!)
    (List.forall_mem_cons.mpr ⟨by norm_num,
     List.forall_mem_cons.mpr ⟨by norm_num,
     List.forall_mem_cons.mpr ⟨prime_23_digits,
     fun _ h => absurd h (List.not_mem_nil _)⟩⟩⟩)
    (by decide!) (by decide!)

/-- Lucas test with base 3: `255515944373312847190720520512484175977` is prime. -/
theorem prime_39_digits : Nat.Prime 255515944373312847190720520512484175977 :=
  prime_of_certificate _ 3
    [2, 2, 2, 7, 7, 11, 1627, 2657, 4423, 41201, 96557, 7240687, 107590001]
    (by decide!) (by decide!)
    (List.forall_mem_cons.mpr ⟨by norm_num,
     List.forall_mem_cons.mpr ⟨by norm_num,
     List.forall_mem_cons.mpr ⟨by norm_num,
     List.forall_mem_cons.mpr ⟨by norm_num,
     List.forall_mem_cons.mpr ⟨by norm_num,
     List.forall_mem_cons.mpr ⟨by norm_num,
     List.forall_mem_cons.mpr ⟨by norm_num,
     List.forall_mem_cons.mpr ⟨by norm_num,
     List.forall_mem_cons.mpr ⟨by norm_num,
     List.forall_mem_cons.mpr ⟨by norm_num,
     List.forall_mem_cons.mpr ⟨by norm_num,
     List.forall_mem_cons.mpr ⟨prime_7240687,
     List.forall_mem_cons.mpr ⟨prime_107590001,
     fun _ h => absurd h (List.not_mem_nil _)⟩⟩⟩⟩⟩⟩⟩⟩⟩⟩⟩⟩⟩)
    (by decide!) (by decide!)

/-- Lucas test with base 10: the factor of 72 digits of `secpP - 1` is prime. -/
theorem prime_72_digits :
    Nat.Prime 205115282021455665897114700593932402728804164701536103180137503955397371 :=
  prime_of_certificate _ 10
    [2, 3, 5, 29, 29, 31, 7723, 132896956044521568488119,
      255515944373312847190720520512484175977]
    (by decide!) (by decide!)
    (List.forall_mem_cons.mpr ⟨by norm_num,
     List.forall_mem_cons.mpr ⟨by norm_num,
     List.forall_mem_cons.mpr ⟨by norm_num,
     List.forall_mem_cons.mpr ⟨by norm_num,
     List.forall_mem_cons.mpr ⟨by norm_num,
     List.forall_mem_cons.mpr ⟨by norm_num,
     List.forall_mem_cons.mpr ⟨by norm_num,
     List.forall_mem_cons.mpr ⟨prime_24_digits,
     List.forall_mem_cons.mpr ⟨prime_39_digits,
     fun _ h => absurd h (List.not_mem_nil _)⟩⟩⟩⟩⟩⟩⟩⟩⟩)
    (by decide!) (by decide!)

/-- The field prime of secp256k1 is prime: Lucas test with base 3 over the
prime factors of `secpP - 1`. -/
theorem secpP_prime : Nat.Prime secpP :=
  prime_of_certificate _ 3
    [2, 3, 7, 13441,
      205115282021455665897114700593932402728804164701536103180137503955397371]
    (by decide!) (by decide!)
    (List.forall_mem_cons.mpr ⟨by norm_num,
     List.forall_mem_cons.mpr ⟨by norm_num,
     List.forall_mem_cons.mpr ⟨by norm_num,
     List.forall_mem_cons.mpr ⟨by norm_num,
     List.forall_mem_cons.mpr ⟨prime_72_digits,
     fun _ h => absurd h (List.not_mem_nil _)⟩⟩⟩⟩⟩)
    (by decide!) (by decide!)

theorem compressPublicKey_parts (x y : Int) (hx0 : 0 ≤ x) (hx : x < 2 ^ 256) :
    compressPublicKey x y = ((2 + y.natAbs % 2) % 256) :: ser256 x.toNat ∧
      SetBytes (ser256 x.toNat) = x.toNat := by
  have hxn : x.natAbs = x.toNat := by omega
  refine ⟨by simp [compressPublicKey, ser256, hxn, PublicKeyCompressedLength], ?_⟩
  unfold ser256
  rw [SetBytes_replicate_zero_append, SetBytes_natBytes]

theorem curve_point_unique (p : Nat) (hp : Nat.Prime p) (hodd : p % 2 = 1)
    (x y1 y2 : Int) (h1 : 0 ≤ y1 ∧ y1 < p) (h2 : 0 ≤ y2 ∧ y2 < p)
    (hc1 : y1 ^ 2 ≡ x ^ 3 + 7 [ZMOD p]) (hc2 : y2 ^ 2 ≡ x ^ 3 + 7 [ZMOD p])
    (hpar : y1 % 2 = y2 % 2) : y1 = y2 := by
  have hsq : y1 ^ 2 ≡ y2 ^ 2 [ZMOD p] := hc1.trans hc2.symm
  have hdvd : (p : Int) ∣ (y1 - y2) * (y1 + y2) := by
    have := (Int.modEq_iff_dvd.mp hsq.symm)
    have e : (y1 - y2) * (y1 + y2) = y1 ^ 2 - y2 ^ 2 := by ring
    rw [e]; exact this
  have hpi : Prime (p : Int) := Nat.prime_iff_prime_int.mp hp
  rcases hpi.dvd_or_dvd hdvd with h | h
  · obtain ⟨k, hk⟩ := h
    have hp0 : (0 : Int) < p := by exact_mod_cast hp.pos
    have : k = 0 := by
      by_contra hne
      rcases lt_or_gt_of_ne hne with hneg | hpos
      · have : (p : Int) * k ≤ (p : Int) * (-1) := by
          apply mul_le_mul_of_nonneg_left _ hp0.le; omega
        omega
      · have : (p : Int) * 1 ≤ (p : Int) * k := by
          apply mul_le_mul_of_nonneg_left _ hp0.le; omega
        omega
    subst this
    omega
  · obtain ⟨k, hk⟩ := h
    have hp0 : (0 : Int) < p := by exact_mod_cast hp.pos
    have hk01 : k = 0 ∨ k = 1 := by
      by_contra hne
      push_neg at hne
      rcases lt_or_gt_of_ne hne.1 with hneg | hpos
      · have : (p : Int) * k ≤ (p : Int) * (-1) := by
          apply mul_le_mul_of_nonneg_left _ hp0.le; omega
        omega
      · have hk2 : 2 ≤ k := by omega
        have : (p : Int) * 2 ≤ (p : Int) * k := by
          apply mul_le_mul_of_nonneg_left hk2 hp0.le
        omega
    rcases hk01 with rfl | rfl
    · omega
    · have hpodd : (p : Int) % 2 = 1 := by exact_mod_cast hodd
      omega

/-! ## Properties -/

/-- C1: `NewExtendedKey` fails with `ErrInvalidSeedLength` exactly when the
seed is shorter than 16 or longer than 64 bytes, and returns a key exactly
when the length lies in `[16, 64]`; so lengths 15 and 65 fail and lengths 16
and 64 succeed. -/
theorem NewExtendedKey_seed_length (c : Crypto) (seed : Bytes) :
    (NewExtendedKey c seed = .err .ErrInvalidSeedLength ↔
        seed.length < 16 ∨ seed.length > 64) ∧
    ((∃ k, NewExtendedKey c seed = .ok k) ↔ 16 ≤ seed.length ∧ seed.length ≤ 64) := by
  unfold NewExtendedKey MinSeedBytes MaxSeedBytes
  by_cases h : seed.length < 16 ∨ seed.length > 64
  · simp only [h, if_true, true_iff, false_iff, not_exists, iff_true, true_and]
    refine ⟨by simp, by omega⟩
  · simp only [h, if_false, iff_false, not_false_eq_true, true_and]
    refine ⟨by simp, ?_⟩
    constructor
    · intro _; omega
    · intro _; exact ⟨_, rfl⟩

/-- C2: for every list of pairs `(n, h)` with `n < 2^31`, `ParsePath` on the
text `m` followed by `/`, the decimal rendering of `n` and an apostrophe when
`h` holds, for each pair in order, succeeds with the list of `n + 2^31` for
hardened and `n` for plain segments, in the same order. -/
theorem ParsePath_pathText :
    (∀ l : List (Nat × Bool), (∀ p ∈ l, p.1 < 2 ^ 31) →
      ParsePath (pathText l) = .ok (l.map segmentIndex)) ∧
    ParsePath (ascii "m/0") = .ok [0] ∧
    ParsePath (ascii "m/0'") = .ok [0x80000000] ∧
    ParsePath (ascii "m/44'/0'/0'/0/0") = .ok [0x8000002c, 0x80000000, 0x80000000, 0, 0] := by
  refine ⟨?_, by decide, by decide, by decide⟩
  intro l hl
  have hroot : ∀ b ∈ ascii "m", b ≠ 47 := by decide
  unfold ParsePath pathText
  rw [Split_segmentsText l (ascii "m") hroot]
  simp only [ne_eq, not_true_eq_false, if_false]
  simpa using parseSegments_segmentText l [] hl

theorem ParsePath_pathText_witness :
    pathText [(44, true), (0, true), (0, true), (0, false), (0, false)]
      = ascii "m/44'/0'/0'/0/0" ∧
    ParsePath (pathText [(44, true), (0, true), (0, true), (0, false), (0, false)])
      = .ok [0x8000002c, 0x80000000, 0x80000000, 0, 0] :=
  ⟨by decide, ParsePath_pathText.1 _ (by decide)⟩

/-- C3: the code accepts segments that do not fit in 31 bits. `"m/2147483648"`
parses to `[0x80000000]`, and in `"m/4294967295'"` the sum
`HardenedKeyStart + 4294967295` wraps around in `uint32` to `0x7fffffff`;
only values of `2^32` and more are rejected by `ParseUint`. -/
theorem ParsePath_accepts_32_bit_segment :
    ParsePath (ascii "m/2147483648") = .ok [0x80000000] ∧
    ParsePath (ascii "m/4294967295'") = .ok [0x7fffffff] ∧
    ParsePath (ascii "m/4294967296") = .err .ErrInvalidPath := by
  decide

/-- C4: an empty segment after the root makes `ParsePath` panic at
`part[len(part)-1]` (index out of range), where the claim expects
`ErrInvalidPath`; the non-numeric segments `"m/abc"` and `"m/'"` do fail
with `ErrInvalidPath`. -/
theorem ParsePath_panics_on_empty_segment :
    ParsePath (ascii "m/") = .panicked ∧
    ParsePath (ascii "m//0") = .panicked ∧
    ParsePath (ascii "m/0/") = .panicked ∧
    ParsePath (ascii "m/abc") = .err .ErrInvalidPath ∧
    ParsePath (ascii "m/'") = .err .ErrInvalidPath := by
  decide

/-- C5: the apostrophe does not decide the hardened bit of the result. The
segment `2147483648'` ends with an apostrophe and yields the normal index
`0`, and the segment `2147483649` has none and yields the hardened index
`0x80000001`. -/
theorem ParsePath_hardened_bit_mismatch :
    ParsePath (ascii "m/2147483648'") = .ok [0] ∧
    ParsePath (ascii "m/2147483649") = .ok [0x80000001] ∧
    ¬ (0 ≥ 2 ^ 31) ∧ 0x80000001 ≥ 2 ^ 31 := by
  decide

/-- C6: when the text before the first slash is not exactly `m`, `ParsePath`
fails with `ErrInvalidPath`, whatever follows. -/
theorem ParsePath_root_not_m (path : Bytes)
    (h : path.takeWhile (fun b => decide (b ≠ 47)) ≠ ascii "m") :
    ParsePath path = .err .ErrInvalidPath := by
  obtain ⟨rest, hrest⟩ := Split_head 47 path
  unfold ParsePath
  rw [hrest]
  simp only [ne_eq, ite_not]
  rw [if_neg h]

theorem ParsePath_root_not_m_witness :
    ParsePath (ascii "") = .err .ErrInvalidPath ∧
    ParsePath (ascii "x/0") = .err .ErrInvalidPath ∧
    ParsePath (ascii "M/0") = .err .ErrInvalidPath ∧
    ParsePath (ascii "/0") = .err .ErrInvalidPath ∧
    ParsePath (ascii " m") = .err .ErrInvalidPath :=
  ⟨ParsePath_root_not_m (ascii "") (by decide),
   ParsePath_root_not_m (ascii "x/0") (by decide),
   ParsePath_root_not_m (ascii "M/0") (by decide),
   ParsePath_root_not_m (ascii "/0") (by decide),
   ParsePath_root_not_m (ascii " m") (by decide)⟩

/-- C7: `ParsePath "m"` succeeds with the empty index sequence, and for every
key `DerivePath key "m"` succeeds and returns that key unchanged. -/
theorem DerivePath_root_identity :
    ParsePath (ascii "m") = .ok [] ∧
    ∀ (c : Crypto) (key : ExtendedKey), DerivePath c key (ascii "m") = .ok key := by
  have h : ParsePath (ascii "m") = .ok [] := by decide
  refine ⟨h, fun c key => ?_⟩
  unfold DerivePath
  rw [h]
  rfl

/-- C8: `DerivePath` passes on the error of a failing `ParsePath` and returns
no key; on a parsed path it is the left-to-right fold of `Derive` over the
indices, which stops at the first failing step with that step's error (a
panic of `ParsePath` is a panic of `DerivePath`). For
`"m/44'/0'/0'/0/0"` this is `Derive` applied with `0x8000002C`, `0x80000000`,
`0x80000000`, `0`, `0` in turn. -/
theorem DerivePath_parse_then_fold (c : Crypto) (key : ExtendedKey) (path : Bytes) :
    (∀ e, ParsePath path = .err e → DerivePath c key path = .err e) ∧
    (ParsePath path = .panicked → DerivePath c key path = .panicked) ∧
    (∀ l, ParsePath path = .ok l → DerivePath c key path = foldDerive c key l) ∧
    (∀ l i k e, foldDerive c key l = .ok k → Derive c k i = .err e →
        foldDerive c key (l ++ [i]) = .err e) ∧
    (∀ l rest e, foldDerive c key l = .err e → foldDerive c key (l ++ rest) = .err e) ∧
    DerivePath c key (ascii "m/44'/0'/0'/0/0") =
      ((((Derive c key 0x8000002C).andThen (fun k => Derive c k 0x80000000)).andThen
        (fun k => Derive c k 0x80000000)).andThen (fun k => Derive c k 0)).andThen
        (fun k => Derive c k 0) := by
  refine ⟨?_, ?_, ?_, ?_, ?_, ?_⟩
  · intro e he
    simp [DerivePath, he]
  · intro hp
    simp [DerivePath, hp]
  · intro l hl
    simp [DerivePath, hl, DerivePaths_eq_foldDerive]
  · intro l i k e hk hd
    simp [foldDerive, List.foldl_append] at hk ⊢
    rw [hk]
    simpa [Outcome.andThen] using hd
  · intro l rest e he
    simp only [foldDerive, List.foldl_append] at he ⊢
    rw [he]
    exact foldDerive_stuck_err c e rest
  · have h : ParsePath (ascii "m/44'/0'/0'/0/0")
        = .ok [0x8000002C, 0x80000000, 0x80000000, 0, 0] := by decide
    simp only [DerivePath, h, DerivePaths_eq_foldDerive]
    rfl

theorem DerivePath_parse_then_fold_witness :
    DerivePath stubCrypto stubMaster (ascii "x/0") = .err .ErrInvalidPath ∧
    DerivePath stubCrypto stubMaster (ascii "m/7'/1")
      = foldDerive stubCrypto stubMaster [0x80000007, 1] :=
  ⟨(DerivePath_parse_then_fold stubCrypto stubMaster (ascii "x/0")).1 _ (by decide),
   (DerivePath_parse_then_fold stubCrypto stubMaster (ascii "m/7'/1")).2.2.1 _ (by decide)⟩

/-- C9: with HMAC-SHA512 an arbitrary function, `Derive` fails with
`ErrInvalidChild` exactly when the big-endian integer of `IL`, the first 32
bytes of the HMAC of the ECDSA data under the parent's ECDSA chain code, is at
least the curve order or is zero; in every other case it returns a key, so the
EdDSA block never makes the step fail. -/
theorem Derive_fails_iff (c : Crypto) (key : ExtendedKey) (childIndex : Nat) :
    (Derive c key childIndex = .err .ErrInvalidChild ↔
      (SetBytes ((c.hmacSHA512 key.ecChainCode (ecData c key childIndex)).take 32) ≥ curveOrder ∨
       SetBytes ((c.hmacSHA512 key.ecChainCode (ecData c key childIndex)).take 32) = 0)) ∧
    ((∃ child, Derive c key childIndex = .ok child) ↔
      ¬ (SetBytes ((c.hmacSHA512 key.ecChainCode (ecData c key childIndex)).take 32) ≥ curveOrder ∨
         SetBytes ((c.hmacSHA512 key.ecChainCode (ecData c key childIndex)).take 32) = 0)) := by
  unfold Derive
  by_cases h : SetBytes ((c.hmacSHA512 key.ecChainCode (ecData c key childIndex)).take 32)
      ≥ curveOrder ∨
      SetBytes ((c.hmacSHA512 key.ecChainCode (ecData c key childIndex)).take 32) = 0
  · simp only [h, if_true, true_iff, not_true_eq_false, iff_false, not_exists, true_and]
    intro x hx
    cases hx
  · simp only [h, if_false, iff_false, not_false_eq_true, iff_true]
    exact ⟨by simp, ⟨_, rfl⟩⟩

/-- C10: `Derive` tests `IL = 0`, not `ki = 0`. Under `stubCrypto` the master
key of the zero seed has scalar `n - 1`; deriving child `0x80000000` gives
`IL = 1`, hence `ki = (1 + (n - 1)) mod n = 0`, and the step succeeds with an
empty `ECPrivateKeyBytes`, of integer value `0`, instead of failing with
`ErrInvalidChild`. -/
theorem Derive_returns_zero_scalar :
    NewExtendedKey stubCrypto (List.replicate 16 0) = .ok stubMaster ∧
    SetBytes stubMaster.ECPrivateKeyBytes = curveOrder - 1 ∧
    SetBytes ((stubCrypto.hmacSHA512 stubMaster.ecChainCode
      (ecData stubCrypto stubMaster 0x80000000)).take 32) = 1 ∧
    ∃ child, Derive stubCrypto stubMaster 0x80000000 = .ok child ∧
      child.ECPrivateKeyBytes = [] ∧ SetBytes child.ECPrivateKeyBytes = 0 := by
  refine ⟨by decide, by decide, by decide, ?_⟩
  refine ⟨{ ecKey := [], ecChainCode := List.replicate 32 2, ecPrivateKey := [],
            ecPublicKey := [], edKey := List.replicate 31 0 ++ [1],
            edChainCode := List.replicate 32 2, edPrivateKey := List.replicate 31 0 ++ [1],
            edPublicKey := List.replicate 31 0 ++ [1] }, by decide, rfl, rfl⟩

/-- C11: `Derive` stores `ki.Bytes()`, which drops leading zero bytes. Under
`gateCrypto` the master key of the zero seed has a 32-byte scalar of value 1;
its child `0` has scalar 2 and `ECPrivateKeyBytes` is the single byte `[2]`,
not a 32-byte buffer. -/
theorem Derive_scalar_bytes_not_padded :
    NewExtendedKey gateCrypto (List.replicate 16 0) = .ok gateMaster ∧
    gateMaster.ECPrivateKeyBytes.length = 32 ∧
    Derive gateCrypto gateMaster 0 = .ok gateChild ∧
    gateChild.ECPrivateKeyBytes = [2] ∧
    gateChild.ECPrivateKeyBytes.length ≠ 32 := by
  decide

/-- C12: for a parent whose stored scalar is shorter than 32 bytes the
hardened HMAC input is not `0x00 || ser256(k) || ser32(i)`. The key
`gateChild` (child `0` of a master key) has scalar 2 stored as `[2]`;
`copy(data[1:], key.ecKey)` puts that byte right after the leading zero, so
the zero padding ends up on the right of the scalar. -/
theorem ecData_hardened_misaligned :
    DerivePaths gateCrypto gateMaster [0] = .ok gateChild ∧
    SetBytes gateChild.ecKey = 2 ∧
    ecData gateCrypto gateChild 0x80000000
      = [0, 2] ++ List.replicate 31 0 ++ [0x80, 0, 0, 0] ∧
    0 :: (ser256 2 ++ ser32 0x80000000)
      = [0] ++ List.replicate 31 0 ++ [2] ++ [0x80, 0, 0, 0] ∧
    ecData gateCrypto gateChild 0x80000000
      ≠ 0 :: (ser256 (SetBytes gateChild.ecKey) ++ ser32 0x80000000) := by
  decide

/-- C13: whenever `Derive` succeeds, the integer of the child's
`ECPrivateKeyBytes` is `(int(IL) + int(parent ECPrivateKeyBytes)) mod n` with
`n` the secp256k1 order, and the child's ECDSA chain code is `IR`; nothing is
assumed about the parent scalar. -/
theorem Derive_child_scalar (c : Crypto) (key child : ExtendedKey) (childIndex : Nat)
    (h : Derive c key childIndex = .ok child) :
    SetBytes child.ECPrivateKeyBytes
      = (SetBytes ((c.hmacSHA512 key.ecChainCode (ecData c key childIndex)).take 32)
          + SetBytes key.ECPrivateKeyBytes) % curveOrder ∧
    curveOrder = 0xFFFFFFFFFFFFFFFFFFFFFFFFFFFFFFFEBAAEDCE6AF48A03BBFD25E8CD0364141 ∧
    child.ecChainCode = (c.hmacSHA512 key.ecChainCode (ecData c key childIndex)).drop 32 := by
  unfold Derive at h
  simp only at h
  split at h
  · cases h
  · cases h
    exact ⟨SetBytes_natBytes _, rfl, rfl⟩

theorem Derive_child_scalar_witness :
    Derive stubCrypto stubMaster 7 = .ok stubChild ∧
    SetBytes stubChild.ECPrivateKeyBytes
      = (SetBytes ((stubCrypto.hmacSHA512 stubMaster.ecChainCode
            (ecData stubCrypto stubMaster 7)).take 32)
          + SetBytes stubMaster.ECPrivateKeyBytes) % curveOrder :=
  ⟨by decide, (Derive_child_scalar stubCrypto stubMaster stubChild 7 (by decide)).1⟩

/-- C14: for integers `0 ≤ x < 2^256` and `0 ≤ y`, `compressPublicKey x y` has
33 bytes; the first is `0x02` for even `y` and `0x03` for odd `y`; the other
32 are the big-endian bytes of `x` padded with zeros on the left, and their
integer value is `x`. -/
theorem compressPublicKey_layout (x y : Int) (hx0 : 0 ≤ x) (hx : x < 2 ^ 256) (hy : 0 ≤ y) :
    (compressPublicKey x y).length = 33 ∧
    (compressPublicKey x y).head? = some (if y % 2 = 0 then 2 else 3) ∧
    (compressPublicKey x y).tail = ser256 x.toNat ∧
    (compressPublicKey x y).tail.length = 32 ∧
    (SetBytes (compressPublicKey x y).tail : Int) = x ∧
    ∀ b ∈ compressPublicKey x y, b < 256 := by
  have hxn : x.natAbs = x.toNat := by omega
  have hlt : x.toNat < 256 ^ 32 := by
    have : (256 : Nat) ^ 32 = 2 ^ 256 := by norm_num
    omega
  have hlen := natBytes_length_le x.toNat 32 hlt
  have htail : (compressPublicKey x y).tail = ser256 x.toNat := by
    simp [compressPublicKey, ser256, hxn, PublicKeyCompressedLength]
  have hval : SetBytes (ser256 x.toNat) = x.toNat := by
    unfold ser256
    rw [SetBytes_replicate_zero_append, SetBytes_natBytes]
  refine ⟨?_, ?_, htail, ?_, ?_, ?_⟩
  · simp only [compressPublicKey, hxn, PublicKeyCompressedLength, List.length_cons,
      List.length_append, List.length_replicate]
    omega
  · simp only [compressPublicKey, List.head?_cons, Option.some.injEq]
    split <;> omega
  · rw [htail]
    simp only [ser256, List.length_append, List.length_replicate]
    omega
  · rw [htail, hval]
    omega
  · intro b hb
    simp only [compressPublicKey, hxn, List.mem_cons, List.mem_append,
      List.mem_replicate] at hb
    rcases hb with hb | hb | hb
    · omega
    · omega
    · exact natBytes_lt _ b hb

theorem compressPublicKey_layout_witness :
    compressPublicKey 5 3 = 3 :: (List.replicate 31 0 ++ [5]) ∧
    (compressPublicKey 5 3).length = 33 :=
  ⟨by decide, (compressPublicKey_layout 5 3 (by norm_num) (by norm_num) (by norm_num)).1⟩

/-- C15: on points of secp256k1 with coordinates in `[0, p)`, that is with
`y^2 = x^3 + 7 (mod p)` for the field prime `p`, `compressPublicKey` is
injective: equal outputs come from equal points. -/
theorem compressPublicKey_injective_on_curve (x1 y1 x2 y2 : Int)
    (hx1 : 0 ≤ x1 ∧ x1 < secpP) (hy1 : 0 ≤ y1 ∧ y1 < secpP)
    (hx2 : 0 ≤ x2 ∧ x2 < secpP) (hy2 : 0 ≤ y2 ∧ y2 < secpP)
    (hc1 : y1 ^ 2 ≡ x1 ^ 3 + 7 [ZMOD secpP]) (hc2 : y2 ^ 2 ≡ x2 ^ 3 + 7 [ZMOD secpP])
    (h : compressPublicKey x1 y1 = compressPublicKey x2 y2) :
    x1 = x2 ∧ y1 = y2 := by
  have hP : ((secpP : Nat) : Int) < 2 ^ 256 := by
    unfold secpP; norm_num
  obtain ⟨e1, v1⟩ := compressPublicKey_parts x1 y1 hx1.1 (lt_trans hx1.2 hP)
  obtain ⟨e2, v2⟩ := compressPublicKey_parts x2 y2 hx2.1 (lt_trans hx2.2 hP)
  rw [e1, e2] at h
  have hhead := (List.cons.inj h).1
  have htail := (List.cons.inj h).2
  have hx : x1 = x2 := by
    have : x1.toNat = x2.toNat := by rw [← v1, ← v2, htail]
    omega
  subst hx
  refine ⟨rfl, ?_⟩
  have hodd : secpP % 2 = 1 := by decide!
  exact curve_point_unique secpP secpP_prime hodd x1 y1 y2 hy1 hy2 hc1 hc2 (by omega)

theorem compressPublicKey_injective_on_curve_witness :
    (secpGx : Int) = secpGx ∧ (secpGy : Int) = secpGy :=
  compressPublicKey_injective_on_curve secpGx secpGy secpGx secpGy
    (by decide!) (by decide!) (by decide!) (by decide!) (by decide!) (by decide!) rfl

/-- C16: two parents with the same ECDSA scalar bytes and ECDSA chain code
get, for every index, the same ECDSA outcome from `Derive`: both fail with
`ErrInvalidChild`, or both succeed with the same ECDSA scalar bytes and ECDSA
chain code, whatever their EdDSA fields are. -/
theorem Derive_ec_independent_of_ed (c : Crypto) (k1 k2 : ExtendedKey) (childIndex : Nat)
    (hkey : k1.ecKey = k2.ecKey) (hcc : k1.ecChainCode = k2.ecChainCode) :
    (Derive c k1 childIndex = .err .ErrInvalidChild ∧
      Derive c k2 childIndex = .err .ErrInvalidChild) ∨
    (∃ c1 c2, Derive c k1 childIndex = .ok c1 ∧ Derive c k2 childIndex = .ok c2 ∧
      c1.ECPrivateKeyBytes = c2.ECPrivateKeyBytes ∧ c1.ecChainCode = c2.ecChainCode) := by
  have hdata : ecData c k1 childIndex = ecData c k2 childIndex := by
    simp [ecData, hkey]
  unfold Derive
  simp only [hdata, hkey, hcc]
  split
  · exact Or.inl ⟨rfl, rfl⟩
  · exact Or.inr ⟨_, _, rfl, rfl, rfl, rfl⟩

theorem Derive_ec_independent_of_ed_witness :
    (Derive gateCrypto gateMaster 0 = .err .ErrInvalidChild ∧
      Derive gateCrypto { gateMaster with edKey := [9], edChainCode := [8] } 0
        = .err .ErrInvalidChild) ∨
    (∃ c1 c2, Derive gateCrypto gateMaster 0 = .ok c1 ∧
      Derive gateCrypto { gateMaster with edKey := [9], edChainCode := [8] } 0 = .ok c2 ∧
      c1.ECPrivateKeyBytes = c2.ECPrivateKeyBytes ∧ c1.ecChainCode = c2.ecChainCode) :=
  Derive_ec_independent_of_ed gateCrypto gateMaster
    { gateMaster with edKey := [9], edChainCode := [8] } 0 rfl rfl

/-- C17: the EdDSA block of `Derive` reads only the parent's EdDSA seed, its
EdDSA chain code and the index. For two parents that agree on these, whatever
their ECDSA fields are, the block computes the same child seed and child chain
code for every index, every key that `Derive` returns for either parent
carries exactly that pair, and a step returns no key only when its ECDSA block
rejects it with `ErrInvalidChild`. -/
theorem Derive_ed_branch_independent_of_ec (c : Crypto) (k1 k2 : ExtendedKey)
    (childIndex : Nat)
    (hkey : k1.edKey = k2.edKey) (hcc : k1.edChainCode = k2.edChainCode) :
    edBranch c k1 childIndex = edBranch c k2 childIndex ∧
    (edOutput (Derive c k1 childIndex) = some (edBranch c k1 childIndex) ∨
      Derive c k1 childIndex = .err .ErrInvalidChild) ∧
    (edOutput (Derive c k2 childIndex) = some (edBranch c k1 childIndex) ∨
      Derive c k2 childIndex = .err .ErrInvalidChild) ∧
    (∀ c1 c2, Derive c k1 childIndex = .ok c1 → Derive c k2 childIndex = .ok c2 →
      c1.EDPrivateKeyBytes = c2.EDPrivateKeyBytes ∧ c1.edChainCode = c2.edChainCode) := by
  have hdata : edData k1 childIndex = edData k2 childIndex := by
    simp [edData, hkey]
  have hbranch : edBranch c k1 childIndex = edBranch c k2 childIndex := by
    simp [edBranch, hdata, hcc]
  have hout : ∀ k : ExtendedKey,
      edOutput (Derive c k childIndex) = some (edBranch c k childIndex) ∨
        Derive c k childIndex = .err .ErrInvalidChild := by
    intro k
    unfold Derive
    simp only
    split
    · exact Or.inr rfl
    · exact Or.inl rfl
  refine ⟨hbranch, hout k1, ?_, ?_⟩
  · rw [hbranch]
    exact hout k2
  · intro c1 c2 h1 h2
    have e1 := hout k1
    have e2 := hout k2
    rw [h1] at e1
    rw [h2] at e2
    rw [← hbranch] at e2
    rcases e1 with e1 | e1
    · rcases e2 with e2 | e2
      · simp only [edOutput, Option.some.injEq] at e1 e2
        have e := e1.trans e2.symm
        exact ⟨congrArg Prod.fst e, congrArg Prod.snd e⟩
      · cases e2
    · cases e1

theorem Derive_ed_branch_independent_of_ec_witness :
    edBranch realCrypto gateMaster 0
      = edBranch realCrypto { gateMaster with ecChainCode := List.replicate 32 3 } 0 ∧
    edOutput (Derive realCrypto gateMaster 0)
      = some (edBranch realCrypto gateMaster 0) ∧
    edOutput (Derive realCrypto { gateMaster with ecChainCode := List.replicate 32 3 } 0)
      = some (edBranch realCrypto gateMaster 0) :=
  ⟨(Derive_ed_branch_independent_of_ec realCrypto gateMaster
      { gateMaster with ecChainCode := List.replicate 32 3 } 0 rfl rfl).1,
   by decide!, by decide!⟩

/-- C18: with the real HMAC-SHA512, secp256k1 and ed25519, `NewExtendedKey` on
the 64-byte seed of the test followed by `DerivePath` with `"m/44'/0'/0'/0/0"`
succeeds and gives the ECDSA private key, the compressed ECDSA public key, the
EdDSA private key and the EdDSA public key that the test expects. -/
theorem known_vector :
    keyMaterial ((NewExtendedKey realCrypto
      (hex ("115fde209e8efb650ad8da2985f7b8bae495a4c45f6d6d7591242e53b0bbbcf9" ++
            "1f4c1d2331cb0f7900929525282be1bf5eb9fb5c42f86ea0e1ded95224e24dda"))).andThen
        (fun k => DerivePath realCrypto k (ascii "m/44'/0'/0'/0/0")))
      = .ok (hex "e8129373fad78817e7e8bad0bc84ae1309bf365142f9226679a43f8d485e46f1",
             hex "02981ccbd66185f1b333b4f599ce6d58e8e37e17740431218c0fae9f678828c662",
             hex ("f352288a8be15bffe77a0b161d81ed70e1c33bb48d9d2a01ba9f0e4a8f8c182d" ++
                  "7a4d4bdb208989049ba116295083db4720448528ff74158bddbc80c1f74963db"),
             hex "7a4d4bdb208989049ba116295083db4720448528ff74158bddbc80c1f74963db") := by
  decide!

/-- C19: with an HMAC that returns 64 bytes, every key reached from
`NewExtendedKey` on a valid seed by a sequence of successful `Derive` steps has
an ECDSA chain code, an EdDSA chain code and an EdDSA seed of 32 bytes each.
The master key takes its ECDSA fields from the HMAC keyed by "Bitcoin seed" and
its EdDSA fields from the one keyed by "ed25519 seed"; a child takes its ECDSA
chain code from the HMAC keyed by the parent's ECDSA chain code and its EdDSA
fields from the one keyed by the parent's EdDSA chain code. -/
theorem chain_codes_and_seed_32_bytes (c : Crypto)
    (h64 : ∀ k d, (c.hmacSHA512 k d).length = 64)
    (seed : Bytes) (path : List Nat) (k0 k : ExtendedKey)
    (h0 : NewExtendedKey c seed = .ok k0) (hk : DerivePaths c k0 path = .ok k) :
    (k.ecChainCode.length = 32 ∧ k.edChainCode.length = 32 ∧
      k.EDPrivateKeyBytes.length = 32) ∧
    (16 ≤ seed.length ∧ seed.length ≤ 64) ∧
    (k0.ecKey = (c.hmacSHA512 (ascii "Bitcoin seed") seed).take 32 ∧
      k0.ecChainCode = (c.hmacSHA512 (ascii "Bitcoin seed") seed).drop 32 ∧
      k0.edKey = (c.hmacSHA512 (ascii "ed25519 seed") seed).take 32 ∧
      k0.edChainCode = (c.hmacSHA512 (ascii "ed25519 seed") seed).drop 32) ∧
    (∀ i child, Derive c k i = .ok child →
      child.ecChainCode = (c.hmacSHA512 k.ecChainCode (ecData c k i)).drop 32 ∧
      child.edKey = (c.hmacSHA512 k.edChainCode (edData k i)).take 32 ∧
      child.edChainCode = (c.hmacSHA512 k.edChainCode (edData k i)).drop 32) := by
  have hseed : 16 ≤ seed.length ∧ seed.length ≤ 64 :=
    ((NewExtendedKey_master_fields c seed k0 h0)).1
  have hm := (NewExtendedKey_master_fields c seed k0 h0).2
  have hinv0 : k0.ecChainCode.length = 32 ∧ k0.edChainCode.length = 32 ∧
      k0.edKey.length = 32 := by
    obtain ⟨_, h2, h3, h4⟩ := hm
    rw [h2, h3, h4]
    simp [h64]
  refine ⟨DerivePaths_lengths c h64 path k0 k hinv0 hk, hseed, hm, ?_⟩
  intro i child hd
  unfold Derive at hd
  simp only at hd
  split at hd
  · cases hd
  · cases hd
    exact ⟨rfl, rfl, rfl⟩

theorem chain_codes_and_seed_32_bytes_witness :
    gateChild.ecChainCode.length = 32 ∧ gateChild.edChainCode.length = 32 ∧
      gateChild.EDPrivateKeyBytes.length = 32 :=
  (chain_codes_and_seed_32_bytes gateCrypto gateCrypto_hmac_length (List.replicate 16 0)
    [0] gateMaster gateChild (by decide) (by decide)).1

/-- C20: `DerivePaths` over `a ++ b` fails with the error of `DerivePaths` over
`a` when that fails, and otherwise continues over `b` from the key returned
for `a`; over the empty list it returns the key it was given. -/
theorem DerivePaths_append (c : Crypto) (key : ExtendedKey) (a b : List Nat) :
    (∀ e, DerivePaths c key a = .err e → DerivePaths c key (a ++ b) = .err e) ∧
    (∀ k, DerivePaths c key a = .ok k → DerivePaths c key (a ++ b) = DerivePaths c k b) ∧
    DerivePaths c key [] = .ok key := by
  refine ⟨?_, ?_, rfl⟩
  · induction a generalizing key with
    | nil => intro e h; simp [DerivePaths] at h
    | cons i rest ih =>
      intro e h
      simp only [List.cons_append, DerivePaths] at h ⊢
      cases hd : Derive c key i with
      | ok k1 => rw [hd] at h; exact ih k1 e h
      | err e1 => rw [hd] at h; exact h
      | panicked => rw [hd] at h; cases h
  · induction a generalizing key with
    | nil =>
      intro k h
      simp only [DerivePaths, Outcome.ok.injEq] at h
      subst h
      rfl
    | cons i rest ih =>
      intro k h
      simp only [List.cons_append, DerivePaths] at h ⊢
      cases hd : Derive c key i with
      | ok k1 => rw [hd] at h; exact ih k1 k h
      | err e1 => rw [hd] at h; cases h
      | panicked => rw [hd] at h; cases h

theorem DerivePaths_append_witness :
    DerivePaths gateCrypto gateMaster ([0] ++ [5, 6])
      = DerivePaths gateCrypto gateChild [5, 6] ∧
    DerivePaths gateCrypto { gateMaster with ecChainCode := List.replicate 32 3 }
      ([0] ++ [5, 6]) = .err .ErrInvalidChild :=
  ⟨(DerivePaths_append gateCrypto gateMaster [0] [5, 6]).2.1 gateChild (by decide),
   (DerivePaths_append gateCrypto { gateMaster with ecChainCode := List.replicate 32 3 }
      [0] [5, 6]).1 _ (by decide)⟩

end Bip32
